import Mathlib

/-!
Verification of the SafeFi monitoring-and-alerting core against its
natural-language specification.

The definitions below are a shallow embedding of the Python source under
`backend/app/services/`: the subscriber alert dispatch/cooldown logic
(`subscriber_alert_service.py`), the sliding-window rate limiter and retry
wrapper (`rate_limiter.py`), the HTTP retrying client and collection loop
(`data_collector.py`), and the automated scheduler (`automated_scheduler.py`).
Timestamps and durations are modelled as rationals, the wall clock and the
random generator as explicit input streams, and the external email / HTTP
collaborators as oracles supplying their outcomes.
-/

namespace SafeFi

/-! ## Subscriber alert service (`subscriber_alert_service.py`) -/

/-- Subscriber row as used by `SubscriberAlertService.check_and_send_alerts`:
thresholds are percentages, `lastAlertSent` is a nullable timestamp
(seconds, modelled as a rational). -/
structure Subscriber where
  email : String
  highRiskThreshold : ℚ
  mediumRiskThreshold : ℚ
  notifyOnHigh : Bool
  notifyOnMedium : Bool
  lastAlertSent : Option ℚ
  deriving Repr, DecidableEq

/-- Ephemeral alert candidate dictionary built inside
`check_and_send_alerts` for one protocol that exceeded a threshold. -/
structure AlertCandidate where
  protocolName : String
  riskScorePct : ℚ
  riskLevel : String
  threshold : ℚ
  alertType : String
  deriving Repr, DecidableEq

/-- Candidate computation of `check_and_send_alerts` for one subscriber and
one protocol: the latest risk score (`none` when the protocol has no risk
rows) is converted to a percentage and compared against the subscriber's
thresholds, high before medium, each gated on the notify flag. -/
def candidateFor (s : Subscriber) (name : String) (risk : Option (ℚ × String)) :
    Option AlertCandidate :=
  match risk with
  | none => none
  | some (score, level) =>
    let pct := score * 100
    if s.highRiskThreshold ≤ pct ∧ s.notifyOnHigh = true then
      some ⟨name, pct, level, s.highRiskThreshold, "high"⟩
    else if s.mediumRiskThreshold ≤ pct ∧ s.notifyOnMedium = true then
      some ⟨name, pct, level, s.mediumRiskThreshold, "medium"⟩
    else none

/-- Embedding of `SubscriberAlertService._should_send_alert`: `true` when the
subscriber has never been alerted, otherwise `true` iff strictly more than
`cooldown` has elapsed since `last_alert_sent`. -/
def shouldSendAlert (cooldown now : ℚ) (lastAlertSent : Option ℚ) : Bool :=
  match lastAlertSent with
  | none => true
  | some last => decide (cooldown < now - last)

/-- Outbound notification call made through the email service: exactly one
`send_risk_alert` (single) or one `send_batch_alerts` (batch) invocation. -/
inductive SendEvent where
  | single (email : String) (a : AlertCandidate)
  | batch (email : String) (as : List AlertCandidate)
  deriving Repr, DecidableEq

/-- Embedding of `SubscriberAlertService._send_alerts_to_subscriber`: one
candidate goes out as a single `send_risk_alert` call, any other number as
one `send_batch_alerts` call.  The boolean returned by the email service
only selects a log line; exceptions are caught inside the method. -/
def sendAlertsToSubscriber (s : Subscriber) (alerts : List AlertCandidate) :
    List SendEvent :=
  if alerts.length = 1 then
    match alerts with
    | [a] => [SendEvent.single s.email a]
    | _ => []
  else
    [SendEvent.batch s.email alerts]

/-- Result of processing one subscriber inside the
`check_and_send_alerts` loop. -/
structure SubscriberCycleResult where
  sends : List SendEvent
  newLastAlertSent : Option ℚ
  alertsSent : ℕ
  alertsSkippedCooldown : ℕ
  deriving Repr, DecidableEq

/-- Embedding of the per-subscriber body of
`SubscriberAlertService.check_and_send_alerts`: when the candidate list is
nonempty and the cooldown check passes, `_send_alerts_to_subscriber` is
invoked and `last_alert_sent` is set to the current time; the
`sendSucceeds` oracle models the boolean returned by the email service,
which the source only logs — the timestamp update does not depend on it.
When the cooldown check fails the candidates are counted as skipped and
the timestamp is left unchanged. -/
def processSubscriber (cooldown now : ℚ) (s : Subscriber)
    (alerts : List AlertCandidate) (sendSucceeds : Bool) :
    SubscriberCycleResult :=
  if alerts.isEmpty then
    ⟨[], s.lastAlertSent, 0, 0⟩
  else if shouldSendAlert cooldown now s.lastAlertSent then
    ⟨sendAlertsToSubscriber s alerts, some now, alerts.length, 0⟩
  else
    ⟨[], s.lastAlertSent, 0, alerts.length⟩

/-- Cooldown used by the service: `timedelta(hours=1)`, in seconds. -/
def alertCooldownSeconds : ℚ := 3600

/-- Sample subscriber that has never been alerted. -/
def sampleNewSubscriber : Subscriber :=
  ⟨"user@example.com", 70, 40, true, true, none⟩

/-- Sample subscriber last alerted at time 0. -/
def sampleCooledSubscriber : Subscriber :=
  ⟨"user@example.com", 70, 40, true, true, some 0⟩

/-- Sample triggered candidate. -/
def sampleCandidate : AlertCandidate := ⟨"Aave", 85, "high", 70, "high"⟩

/-- Second sample triggered candidate. -/
def sampleCandidateB : AlertCandidate := ⟨"Curve", 91, "high", 70, "high"⟩

/-! ## Risk recomputation (`automated_scheduler.py`, `_recalculate_risk_scores`) -/

/-- Clamp applied to the perturbed score:
`new_score = max(0.05, min(0.95, new_score))`. -/
def clampRiskScore (x : ℚ) : ℚ := max (1/20) (min (19/20) x)

/-- Level derivation in `_recalculate_risk_scores`: `high` when the score is
at least 0.70, else `medium` when at least 0.40, else `low`. -/
def riskLevelOf (x : ℚ) : String :=
  if (7/10 : ℚ) ≤ x then "high"
  else if (2/5 : ℚ) ≤ x then "medium"
  else "low"

/-- Perturbed and clamped score:
`old_score + old_score * variation_pct * direction` with
`direction ∈ {-1, 1}`, then clamped. -/
def newRiskScore (oldScore variationPct : ℚ) (direction : ℤ) : ℚ :=
  clampRiskScore (oldScore + oldScore * variationPct * direction)

/-- Fields of the `RiskScore` row appended by the scheduler that the claims
are about. -/
structure RiskRecordEntry where
  riskScore : ℚ
  riskLevel : String
  deriving Repr, DecidableEq

/-- One appended `RiskScore` row of `_recalculate_risk_scores`: the stored
level is computed from the already clamped stored score. -/
def recalcRiskEntry (oldScore variationPct : ℚ) (direction : ℤ) : RiskRecordEntry :=
  let s := newRiskScore oldScore variationPct direction
  ⟨s, riskLevelOf s⟩

/-! ## Metrics refresh (`automated_scheduler.py`, `_update_protocol_metrics`)
and collection (`data_collector.py`, `DataCollectorService.collect`) -/

/-- Outcome of handling one active protocol inside the
`_update_protocol_metrics` loop: no stored metric row (the protocol is
skipped with a warning), a successful synthetic update added to the
session, or an exception raised while processing the item. -/
inductive MetricItem where
  | noMetric
  | ok
  | fails
  deriving Repr, DecidableEq

/-- Result of `_update_protocol_metrics`: how many new metric rows were
actually committed, the reported `updated_count`, and whether the step
ended in its exception handler. -/
structure MetricsUpdateResult where
  persisted : ℕ
  updatedCount : ℕ
  errored : Bool
  deriving Repr, DecidableEq

/-- Loop of `_update_protocol_metrics` with `pending` rows added to the
session so far.  The whole loop runs inside one `try`: the first raising
item jumps to the handler, which rolls the session back (nothing is
committed) and returns `updated_count = 0` with an error; only a fully
clean pass reaches `db.commit()`. -/
def updateProtocolMetricsAux : ℕ → List MetricItem → MetricsUpdateResult
  | pending, [] => ⟨pending, pending, false⟩
  | pending, MetricItem.noMetric :: rest => updateProtocolMetricsAux pending rest
  | pending, MetricItem.ok :: rest => updateProtocolMetricsAux (pending + 1) rest
  | _, MetricItem.fails :: _ => ⟨0, 0, true⟩

/-- Embedding of `_update_protocol_metrics` over the active protocols. -/
def updateProtocolMetrics (items : List MetricItem) : MetricsUpdateResult :=
  updateProtocolMetricsAux 0 items

/-- Result counting of `DataCollectorService.collect`: the gathered
per-protocol task results are either exceptions (logged, contributing
nothing) or booleans, and `processed` adds `int(bool(r))` for each. -/
def collectProcessed : List (Except String Bool) → ℕ
  | [] => 0
  | Except.error _ :: rest => collectProcessed rest
  | Except.ok b :: rest => (if b then 1 else 0) + collectProcessed rest

/-! ## Scheduler interval (`automated_scheduler.py`) -/

/-- Embedding of Python `random.randint lo hi` (inclusive bounds) driven by
one raw roll. -/
def randint (lo hi roll : ℕ) : ℕ := lo + roll % (hi - lo + 1)

/-- Scheduler state relevant to interval scheduling: the period of the
registered APScheduler interval job, and the running flag. -/
structure SchedState where
  jobIntervalMinutes : Option ℕ
  isRunning : Bool
  deriving Repr, DecidableEq

/-- Embedding of `AutomatedScheduler.start`: a no-op when already running,
otherwise it draws `random.randint(60, 120)` once and registers the data
update job with an `IntervalTrigger` of that fixed period. -/
def startScheduler (st : SchedState) (rolls : List ℕ) : SchedState × List ℕ :=
  if st.isRunning then (st, rolls)
  else
    match rolls with
    | [] => (st, [])
    | r :: rest => (⟨some (randint 60 120 r), true⟩, rest)

/-- Interval-related effect of `_run_data_update_cycle`: at the end of a
cycle the source draws `next_run_minutes = random.randint(60, 120)` and
uses it only in the two summary log lines; the scheduler state (and hence
the registered trigger period) is returned unchanged.  The first component
is the logged "next update in" estimate. -/
def dataUpdateCycleLoggedNext (st : SchedState) (rolls : List ℕ) :
    ℕ × SchedState × List ℕ :=
  match rolls with
  | [] => (0, st, [])
  | r :: rest => (randint 60 120 r, st, rest)

/-- Delay, in minutes, before the next timer-driven cycle: the
`IntervalTrigger` period registered at `start`, which is never
re-registered afterwards. -/
def nextRunDelayMinutes (st : SchedState) : Option ℕ := st.jobIntervalMinutes

/-! ## Rate limiter (`rate_limiter.py`, `RateLimiter.acquire`) -/

/-- Pruning loop at the top of `RateLimiter.acquire`: timestamps strictly
older than `now - period_seconds` are popped from the front of the deque
(kept in arrival order). -/
def pruneCallTimes (period now : ℚ) (callTimes : List ℚ) : List ℚ :=
  callTimes.dropWhile (fun u => decide (u < now - period))

/-- Observable action of one `acquire` invocation. -/
inductive RLEvent where
  | lockAcquire
  | sleep (d : ℚ)
  | record (t : ℚ)
  | lockRelease
  deriving Repr, DecidableEq

/-- Final state of one `acquire` invocation. -/
inductive RLOutcome where
  | granted (callTimes : List ℚ)
  | blockedOnLock
  | noClock
  deriving Repr, DecidableEq

/-- Trace semantics of `RateLimiter.acquire` for one task.  `lockHeld` says
whether this task already holds `self._lock` on entry (the recursive call
is made inside the `async with` block, so it re-enters with the lock
held); `asyncio.Lock` is not reentrant, so such an entry blocks forever.
`nows` is the stream of `time.time()` readings.  At the limit the source
sleeps for `period - (now - oldest) + 0.1` while still inside the lock and
then calls itself recursively; below the limit it records `now` and
releases the lock. -/
def acquireTrace (m : ℕ) (p : ℚ) :
    List ℚ → Bool → List ℚ → List RLEvent × RLOutcome
  | _, true, _ => ([], RLOutcome.blockedOnLock)
  | _, false, [] => ([], RLOutcome.noClock)
  | callTimes, false, now :: rest =>
    let pruned := pruneCallTimes p now callTimes
    if m ≤ pruned.length then
      let r := acquireTrace m p pruned true rest
      (RLEvent.lockAcquire ::
        RLEvent.sleep (p - (now - pruned.headD 0) + 1/10) :: r.1, r.2)
    else
      ([RLEvent.lockAcquire, RLEvent.record now, RLEvent.lockRelease],
        RLOutcome.granted (pruned ++ [now]))

/-- Single grant attempt of `RateLimiter.acquire` (the path that does not
wait): prune, then either refuse (the source would sleep inside the lock
and deadlock) or append the current timestamp. -/
def acquireStep (m : ℕ) (p now : ℚ) (callTimes : List ℚ) : Option (List ℚ) :=
  let pruned := pruneCallTimes p now callTimes
  if m ≤ pruned.length then none else some (pruned ++ [now])

/-- Sequential `acquire` calls at clock readings `ts`, starting from the
given deque contents; `some` exactly when every call is granted without
waiting. -/
def runAcquires (m : ℕ) (p : ℚ) : List ℚ → List ℚ → Option (List ℚ)
  | [], l => some l
  | now :: rest, l =>
    match acquireStep m p now l with
    | none => none
    | some l' => runAcquires m p rest l'

/-! ## Retry wrappers (`rate_limiter.py`, `execute_with_backoff` and
`data_collector.py`, `_RetryingClient.get_json`) -/

/-- Character-list version of "starts with", used to embed Python's `in`
substring test. -/
def charSeqStartsWith : List Char → List Char → Bool
  | [], _ => true
  | _ :: _, [] => false
  | a :: as, b :: bs => a == b && charSeqStartsWith as bs

/-- Character-list version of Python's substring containment test. -/
def charSeqContains (needle : List Char) : List Char → Bool
  | [] => charSeqStartsWith needle []
  | b :: bs => charSeqStartsWith needle (b :: bs) || charSeqContains needle bs

/-- Error classification of `execute_with_backoff`:
`"429" in str(e).lower() or "rate limit" in ... or "too many requests" in ...`. -/
def isRateLimitError (msg : String) : Bool :=
  let m := msg.data.map Char.toLower
  charSeqContains "429".data m || charSeqContains "rate limit".data m ||
    charSeqContains "too many requests".data m

/-- Result of `RateLimiter.execute_with_backoff`, together with the backoff
sleeps performed along the way. -/
inductive EWBResult where
  | success (sleeps : List ℚ)
  | raisedImmediately (msg : String) (sleeps : List ℚ)
  | exhausted (lastErr : Option String) (sleeps : List ℚ)
  deriving Repr, DecidableEq

/-- Retry loop of `RateLimiter.execute_with_backoff`, driven by the oracle
`attempts` giving the outcome of each call of the wrapped function
(`Except.error` carries `str(e)`).  While `retry_count < max_retries`: a
success returns; an error whose message matches the rate-limit patterns
increments `retry_count`, sleeps `min(backoff_factor ** retry_count,
max_backoff)` and loops; any other error is re-raised immediately.
Falling out of the loop raises the last recorded error. -/
def ewbAux (factor maxB : ℚ) (maxRetries retryCount : ℕ) (lastErr : Option String)
    (sleeps : List ℚ) : List (Except String Unit) → EWBResult
  | [] => EWBResult.exhausted lastErr sleeps
  | a :: rest =>
    if maxRetries ≤ retryCount then EWBResult.exhausted lastErr sleeps
    else
      match a with
      | Except.ok _ => EWBResult.success sleeps
      | Except.error e =>
        if isRateLimitError e then
          ewbAux factor maxB maxRetries (retryCount + 1) (some e)
            (sleeps ++ [min (factor ^ (retryCount + 1)) maxB]) rest
        else EWBResult.raisedImmediately e sleeps

/-- Embedding of `RateLimiter.execute_with_backoff`. -/
def executeWithBackoff (factor maxB : ℚ) (maxRetries : ℕ)
    (attempts : List (Except String Unit)) : EWBResult :=
  ewbAux factor maxB maxRetries 0 none [] attempts

/-- Outcome of one HTTP attempt inside `_RetryingClient.get_json`: a good
response, a 429 response carrying the parsed `Retry-After` value (0 when
the header is absent, matching `float(resp.headers.get("Retry-After",
"0"))`), or a raised `httpx.HTTPStatusError`/`httpx.TransportError`. -/
inductive HttpAttempt where
  | okJson
  | resp429 (retryAfter : ℚ)
  | transientErr (msg : String)
  deriving Repr, DecidableEq

/-- Result of `_RetryingClient.get_json` with its performed sleeps;
`noneReturned` is the implicit `None` returned when the `for` loop ends
with `last_exc` still unset (every attempt was a 429). -/
inductive GetJsonResult where
  | success (sleeps : List ℚ)
  | raised (msg : String) (sleeps : List ℚ)
  | noneReturned (sleeps : List ℚ)
  deriving Repr, DecidableEq

/-- Loop of `get_json` (`for attempt in range(max_retries)`), with `fuel`
the remaining iterations and `attempt` the current index.  A 429 sleeps
`min(Retry-After or backoff_base * 2 ** attempt, 10)` without recording an
error; a transient exception records itself as `last_exc` and sleeps
`backoff_base * 2 ** attempt`; after the loop, `last_exc` is raised when
set, else `None` is returned. -/
def getJsonAux (base : ℚ) :
    ℕ → ℕ → Option String → List ℚ → List HttpAttempt → GetJsonResult
  | 0, _, lastExc, sleeps, _ =>
    match lastExc with
    | some e => GetJsonResult.raised e sleeps
    | none => GetJsonResult.noneReturned sleeps
  | _ + 1, _, lastExc, sleeps, [] =>
    match lastExc with
    | some e => GetJsonResult.raised e sleeps
    | none => GetJsonResult.noneReturned sleeps
  | fuel + 1, attempt, lastExc, sleeps, o :: rest =>
    match o with
    | HttpAttempt.okJson => GetJsonResult.success sleeps
    | HttpAttempt.resp429 ra =>
      let d := if ra = 0 then base * 2 ^ attempt else ra
      getJsonAux base fuel (attempt + 1) lastExc (sleeps ++ [min d 10]) rest
    | HttpAttempt.transientErr e =>
      getJsonAux base fuel (attempt + 1) (some e)
        (sleeps ++ [base * 2 ^ attempt]) rest

/-- Embedding of `_RetryingClient.get_json`. -/
def getJson (base : ℚ) (maxRetries : ℕ) (outcomes : List HttpAttempt) :
    GetJsonResult :=
  getJsonAux base maxRetries 0 none [] outcomes

/-- Expected sleep sequence of `execute_with_backoff` for `cnt` consecutive
rate-limited attempts starting at retry counter `start`:
`min(backoff_factor ** (start+k+1), max_backoff)` for `k < cnt`. -/
def rlBackoffSleeps (factor maxB : ℚ) (start cnt : ℕ) : List ℚ :=
  (List.range cnt).map fun k => min (factor ^ (start + k + 1)) maxB

/-- Expected sleep sequence of `get_json` for `cnt` consecutive transient
errors starting at attempt index `start`: `backoff_base * 2 ** (start+k)`
for `k < cnt`. -/
def gjBackoffSleeps (base : ℚ) (start cnt : ℕ) : List ℚ :=
  (List.range cnt).map fun k => base * 2 ^ (start + k)

end SafeFi

namespace SafeFi

/-- C1 counterexample: a subscriber outside cooldown with one triggered
candidate whose notification send FAILS (the email service returns false)
still has `last_alert_sent` advanced to the dispatch time — the source
updates the timestamp unconditionally after `_send_alerts_to_subscriber`,
which swallows the failure, so the claim "if the send fails,
last_alert_sent is left unchanged" is false. -/
theorem lastAlertSent_advanced_on_failed_send :
    (processSubscriber alertCooldownSeconds 1000 sampleNewSubscriber
        [sampleCandidate] false).sends ≠ [] ∧
    (processSubscriber alertCooldownSeconds 1000 sampleNewSubscriber
        [sampleCandidate] false).newLastAlertSent = some 1000 ∧
    sampleNewSubscriber.lastAlertSent ≠ some 1000 := by
  refine ⟨?_, ?_, ?_⟩ <;> decide

/-- C1 (amended): for every subscriber with a nonempty triggered candidate
list that passes the cooldown check, the dispatch is attempted and
`last_alert_sent` is set to the dispatch time regardless of whether the
send succeeds; a failed send is only logged, so the same candidates are
suppressed (not retried) until the cooldown next expires. -/
theorem lastAlertSent_updated_regardless_of_send_outcome
    (cooldown now : ℚ) (s : Subscriber) (alerts : List AlertCandidate)
    (ok : Bool) (h1 : alerts ≠ [])
    (h2 : shouldSendAlert cooldown now s.lastAlertSent = true) :
    (processSubscriber cooldown now s alerts ok).newLastAlertSent = some now ∧
    (processSubscriber cooldown now s alerts ok).sends =
      sendAlertsToSubscriber s alerts := by
  cases alerts with
  | nil => exact absurd rfl h1
  | cons a as => simp [processSubscriber, h2]

/-- C1 witness: concrete instantiation of the amended theorem with a failing
send (`ok = false`). -/
theorem lastAlertSent_updated_regardless_of_send_outcome_witness :
    (processSubscriber 3600 1000 sampleNewSubscriber [sampleCandidate]
        false).newLastAlertSent = some 1000 ∧
    (processSubscriber 3600 1000 sampleNewSubscriber [sampleCandidate]
        false).sends = sendAlertsToSubscriber sampleNewSubscriber [sampleCandidate] :=
  lastAlertSent_updated_regardless_of_send_outcome 3600 1000
    sampleNewSubscriber [sampleCandidate] false (by decide) (by decide)

/-- C6: for a subscriber with triggered candidates and a recorded
`last_alert_sent`, if `now - last ≤ cooldown` then no notification call is
made this cycle and the timestamp is unchanged (the candidates are counted
as skipped); if `now - last > cooldown` the candidates are dispatched via
`_send_alerts_to_subscriber` and `last_alert_sent` is set to the dispatch
time. -/
theorem cooldown_gates_dispatch
    (cooldown now last : ℚ) (s : Subscriber) (alerts : List AlertCandidate)
    (ok : Bool) (hl : s.lastAlertSent = some last) (ha : alerts ≠ []) :
    (now - last ≤ cooldown →
      (processSubscriber cooldown now s alerts ok).sends = [] ∧
      (processSubscriber cooldown now s alerts ok).alertsSent = 0 ∧
      (processSubscriber cooldown now s alerts ok).newLastAlertSent = some last) ∧
    (cooldown < now - last →
      (processSubscriber cooldown now s alerts ok).sends =
        sendAlertsToSubscriber s alerts ∧
      (processSubscriber cooldown now s alerts ok).newLastAlertSent = some now) := by
  cases alerts with
  | nil => exact absurd rfl ha
  | cons a as =>
    constructor
    · intro hle
      have hno : shouldSendAlert cooldown now (some last) = false := by
        simp [shouldSendAlert]; linarith
      simp [processSubscriber, hl, hno]
    · intro hgt
      have hyes : shouldSendAlert cooldown now (some last) = true := by
        simp [shouldSendAlert]; linarith
      simp [processSubscriber, hl, hyes]

/-- C6 witness: subscriber last alerted 90 minutes (5400 s) ago with a one
hour cooldown is dispatched and its timestamp updated. -/
theorem cooldown_gates_dispatch_witness :
    (processSubscriber 3600 5400 sampleCooledSubscriber [sampleCandidate]
        true).sends = sendAlertsToSubscriber sampleCooledSubscriber [sampleCandidate] ∧
    (processSubscriber 3600 5400 sampleCooledSubscriber [sampleCandidate]
        true).newLastAlertSent = some 5400 :=
  (cooldown_gates_dispatch 3600 5400 0 sampleCooledSubscriber
      [sampleCandidate] true rfl (by decide)).2 (by norm_num)

/-- C7: within one cycle a subscriber generates at most one outbound send;
exactly one triggered candidate goes out as one single-item
`send_risk_alert` call and more than one as one batched
`send_batch_alerts` call. -/
theorem one_send_per_subscriber_per_cycle
    (cooldown now : ℚ) (s : Subscriber) (alerts : List AlertCandidate)
    (ok : Bool) (a : AlertCandidate) :
    (processSubscriber cooldown now s alerts ok).sends.length ≤ 1 ∧
    (alerts = [a] →
      sendAlertsToSubscriber s alerts = [SendEvent.single s.email a]) ∧
    (1 < alerts.length →
      sendAlertsToSubscriber s alerts = [SendEvent.batch s.email alerts]) := by
  refine ⟨?_, ?_, ?_⟩
  · unfold processSubscriber
    split
    · simp
    · split
      · unfold sendAlertsToSubscriber
        split
        · split <;> simp
        · simp
      · simp
  · rintro rfl
    simp [sendAlertsToSubscriber]
  · intro hlen
    unfold sendAlertsToSubscriber
    split
    · omega
    · rfl

/-- C7 witness: three simultaneously triggered candidates produce exactly
one batched call, and the per-cycle send list has length at most one. -/
theorem one_send_per_subscriber_per_cycle_witness :
    (processSubscriber 3600 1000 sampleNewSubscriber
        [sampleCandidate, sampleCandidateB, sampleCandidate] true).sends.length ≤ 1 ∧
    sendAlertsToSubscriber sampleNewSubscriber
        [sampleCandidate, sampleCandidateB, sampleCandidate] =
      [SendEvent.batch "user@example.com"
        [sampleCandidate, sampleCandidateB, sampleCandidate]] :=
  ⟨(one_send_per_subscriber_per_cycle 3600 1000 sampleNewSubscriber
      [sampleCandidate, sampleCandidateB, sampleCandidate] true sampleCandidate).1,
   (one_send_per_subscriber_per_cycle 3600 1000 sampleNewSubscriber
      [sampleCandidate, sampleCandidateB, sampleCandidate] true sampleCandidate).2.2
      (by decide)⟩

/-- C10: a subscriber whose `last_alert_sent` is null is never suppressed by
the cooldown check: `_should_send_alert` returns true, so a nonempty
candidate list is always dispatched. -/
theorem never_alerted_subscriber_not_suppressed
    (cooldown now : ℚ) (s : Subscriber) (alerts : List AlertCandidate)
    (ok : Bool) (h0 : s.lastAlertSent = none) (ha : alerts ≠ []) :
    shouldSendAlert cooldown now s.lastAlertSent = true ∧
    (processSubscriber cooldown now s alerts ok).sends =
      sendAlertsToSubscriber s alerts := by
  have hs : shouldSendAlert cooldown now s.lastAlertSent = true := by
    simp [shouldSendAlert, h0]
  refine ⟨hs, ?_⟩
  cases alerts with
  | nil => exact absurd rfl ha
  | cons a as => simp [processSubscriber, hs]

/-- C10 witness: the never-alerted sample subscriber is eligible and
dispatched. -/
theorem never_alerted_subscriber_not_suppressed_witness :
    shouldSendAlert 3600 1000 sampleNewSubscriber.lastAlertSent = true ∧
    (processSubscriber 3600 1000 sampleNewSubscriber [sampleCandidate]
        true).sends = sendAlertsToSubscriber sampleNewSubscriber [sampleCandidate] :=
  never_alerted_subscriber_not_suppressed 3600 1000 sampleNewSubscriber
    [sampleCandidate] true rfl (by decide)

/-- The clamp keeps every score between 0.05 and 0.95. -/
theorem clampRiskScore_bounds (x : ℚ) :
    1/20 ≤ clampRiskScore x ∧ clampRiskScore x ≤ 19/20 :=
  ⟨le_max_left _ _, max_le (by norm_num) (min_le_left _ _)⟩

/-- Characterisation of the level thresholds of `_recalculate_risk_scores`. -/
theorem riskLevelOf_cases (y : ℚ) :
    (riskLevelOf y = "high" ↔ 7/10 ≤ y) ∧
    (riskLevelOf y = "medium" ↔ (2/5 ≤ y ∧ y < 7/10)) ∧
    (riskLevelOf y = "low" ↔ y < 2/5) := by
  unfold riskLevelOf
  split_ifs with h1 h2 <;>
    refine ⟨?_, ?_, ?_⟩ <;> simp_all <;> linarith

/-- C2: at the failing input (limiter of one call per 60 s, a call granted
at time 0, a second call at time 1) the second `acquire` enters the lock,
sleeps 59.1 s while STILL holding it, and then blocks forever on the
recursive re-entry because `asyncio.Lock` is not reentrant: the trace
holds a sleep after the lock acquisition with no release, the call is
never granted, and only the under-limit path releases the lock.  This
contradicts the claim that `acquire` loops without sleeping inside the
mutual-exclusion section. -/
theorem acquire_at_limit_sleeps_in_lock_then_deadlocks :
    acquireTrace 1 60 [0] false [1, 2] =
      ([RLEvent.lockAcquire, RLEvent.sleep (591/10)], RLOutcome.blockedOnLock) ∧
    RLEvent.lockRelease ∉ (acquireTrace 1 60 [0] false [1, 2]).1 ∧
    (∀ l, (acquireTrace 1 60 [0] false [1, 2]).2 ≠ RLOutcome.granted l) ∧
    acquireTrace 1 60 [] false [0] =
      ([RLEvent.lockAcquire, RLEvent.record 0, RLEvent.lockRelease],
        RLOutcome.granted [0]) := by
  have h : acquireTrace 1 60 [0] false [1, 2] =
      ([RLEvent.lockAcquire, RLEvent.sleep (591/10)], RLOutcome.blockedOnLock) := by
    norm_num [acquireTrace, pruneCallTimes, List.dropWhile]
  refine ⟨h, ?_, ?_, ?_⟩
  · rw [h]; simp
  · rw [h]; simp
  · norm_num [acquireTrace, pruneCallTimes, List.dropWhile]

/-- On a sorted list, dropping the strictly-too-old front prefix is the
same as keeping everything at least as recent as the cutoff. -/
theorem dropWhile_lt_eq_filter_of_sorted (c : ℚ) :
    ∀ l : List ℚ, l.Sorted (· ≤ ·) →
      l.dropWhile (fun u => decide (u < c)) = l.filter (fun u => decide (c ≤ u)) := by
  intro l
  induction l with
  | nil => intro _; rfl
  | cons a as ih =>
    intro hs
    rcases List.sorted_cons.mp hs with ⟨ha, has⟩
    by_cases hac : a < c
    · have h2 : ¬ c ≤ a := not_le.mpr hac
      simp [List.dropWhile_cons, List.filter_cons, hac, h2, ih has]
    · have h1 : c ≤ a := not_lt.mp hac
      have hall : List.filter (fun u => decide (c ≤ u)) as = as :=
        List.filter_eq_self.mpr fun u hu => by
          simpa using le_trans h1 (ha u hu)
      simp [List.dropWhile_cons, List.filter_cons, hac, h1, hall]

/-- Filtering with a pointwise stronger boolean predicate yields a list no
longer than with the weaker one. -/
theorem filter_length_le_of_imp {α : Type} (l : List α) (f g : α → Bool)
    (h : ∀ a ∈ l, f a = true → g a = true) :
    (l.filter f).length ≤ (l.filter g).length := by
  induction l with
  | nil => simp
  | cons a as ih =>
    have ih' := ih fun x hx hfx => h x (List.mem_cons_of_mem a hx) hfx
    rw [List.filter_cons, List.filter_cons]
    cases hfa : f a with
    | false => cases hga : g a <;> simp <;> omega
    | true =>
      have hga := h a (List.mem_cons_self a as) hfa
      rw [hga]
      simpa using ih'

/-- A list with a nonempty filter splits at the LAST element satisfying the
predicate. -/
theorem exists_split_last_filter {α : Type} (f : α → Bool) :
    ∀ l : List α, l.filter f ≠ [] →
      ∃ pre v post, l = pre ++ v :: post ∧ f v = true ∧ post.filter f = [] := by
  intro l
  induction l with
  | nil => intro h; simp at h
  | cons a as ih =>
    intro h
    by_cases has : as.filter f = []
    · have hfa : f a = true := by
        cases hfa : f a with
        | true => rfl
        | false => rw [List.filter_cons, hfa] at h; simp [has] at h
      exact ⟨[], a, as, rfl, hfa, has⟩
    · obtain ⟨pre, v, post, he, hv, hp⟩ := ih has
      exact ⟨a :: pre, v, post, by rw [he, List.cons_append], hv, hp⟩

/-- Raising the cutoff of a recency filter subsumes a previous lower
cutoff. -/
theorem filter_ge_filter_ge {c c' : ℚ} (hcc : c ≤ c') (l : List ℚ) :
    (l.filter (fun u => decide (c ≤ u))).filter (fun u => decide (c' ≤ u)) =
      l.filter (fun u => decide (c' ≤ u)) := by
  rw [List.filter_filter]
  refine List.filter_congr fun u _ => ?_
  by_cases hcu : c' ≤ u
  · have : c ≤ u := le_trans hcc hcu
    simp [hcu, this]
  · simp [hcu]

/-- Core invariant of `runAcquires`: starting from a deque holding exactly
the history elements at least as recent as a cutoff `c` that precedes all
remaining windows, every grant `v` in the remaining schedule sees at most
`m` granted timestamps within its own trailing window. -/
theorem runAcquires_split_bound (m : ℕ) (p : ℚ) (hp : 0 ≤ p) :
    ∀ (rest hist : List ℚ) (c : ℚ) (lfin : List ℚ),
      (hist ++ rest).Sorted (· ≤ ·) →
      (∀ v ∈ rest, c ≤ v - p) →
      runAcquires m p rest (hist.filter (fun u => decide (c ≤ u))) = some lfin →
      ∀ pre v post, rest = pre ++ v :: post →
        (((hist ++ pre) ++ [v]).filter (fun u => decide (v - p ≤ u))).length ≤ m := by
  intro rest
  induction rest with
  | nil =>
    intro hist c lfin _ _ _ pre v post he
    simp at he
  | cons now rest' ih =>
    intro hist c lfin hsort hc hrun pre v post he
    have hsort' : ((hist ++ [now]) ++ rest').Sorted (· ≤ ·) := by
      simpa [List.append_assoc] using hsort
    have hhist : hist.Sorted (· ≤ ·) :=
      hsort.sublist (List.sublist_append_left hist (now :: rest'))
    have hnow_le : ∀ u ∈ rest', now ≤ u := by
      have h2 : (now :: rest').Pairwise (· ≤ ·) :=
        hsort.sublist (List.sublist_append_right hist (now :: rest'))
      exact (List.pairwise_cons.mp h2).1
    have hcnow : c ≤ now - p := hc now (by simp)
    have hfsorted : (hist.filter (fun u => decide (c ≤ u))).Sorted (· ≤ ·) :=
      hhist.sublist (List.filter_sublist hist)
    have hstate : pruneCallTimes p now (hist.filter (fun u => decide (c ≤ u))) =
        hist.filter (fun u => decide (now - p ≤ u)) := by
      rw [pruneCallTimes, dropWhile_lt_eq_filter_of_sorted _ _ hfsorted,
        filter_ge_filter_ge hcnow]
    replace hrun :
        (match acquireStep m p now (hist.filter (fun u => decide (c ≤ u))) with
          | none => none
          | some l' => runAcquires m p rest' l') = some lfin := hrun
    have hstep :
        acquireStep m p now (hist.filter (fun u => decide (c ≤ u))) =
          (if m ≤ (hist.filter (fun u => decide (now - p ≤ u))).length then none
            else some (hist.filter (fun u => decide (now - p ≤ u)) ++ [now])) := by
      rw [← hstate]; rfl
    rw [hstep] at hrun
    by_cases hlen : m ≤ (hist.filter (fun u => decide (now - p ≤ u))).length
    · rw [if_pos hlen] at hrun
      exact absurd hrun (by simp)
    · rw [if_neg hlen] at hrun
      replace hrun :
          runAcquires m p rest'
              (hist.filter (fun u => decide (now - p ≤ u)) ++ [now]) =
            some lfin := hrun
      have hnewstate : hist.filter (fun u => decide (now - p ≤ u)) ++ [now] =
          (hist ++ [now]).filter (fun u => decide (now - p ≤ u)) := by
        have hnowt : decide (now - p ≤ now) = true := decide_eq_true (by linarith)
        simp only [List.filter_append, List.filter_cons, List.filter_nil, hnowt]
        simp
      rw [hnewstate] at hrun
      have hc' : ∀ u ∈ rest', now - p ≤ u - p := fun u hu => by
        have := hnow_le u hu; linarith
      have IH := ih (hist ++ [now]) (now - p) lfin hsort' hc' hrun
      cases pre with
      | nil =>
        have hnv : now = v ∧ rest' = post := by simpa using he
        obtain ⟨rfl, rfl⟩ := hnv
        rw [List.append_nil, ← hnewstate, List.length_append]
        simp only [List.length_singleton]
        omega
      | cons a pre' =>
        have hsplit : now = a ∧ rest' = pre' ++ v :: post := by simpa using he
        obtain ⟨rfl, hrest⟩ := hsplit
        have := IH pre' v post hrest
        simpa [List.append_assoc] using this

/-- C3 (rate-safety invariant of `RateLimiter.acquire`): for any sorted
schedule of clock readings at which every `acquire` call is granted
(starting from an empty deque), no trailing window of length
`period_seconds` ever contains more than `max_calls` granted
timestamps. -/
theorem acquire_window_safety (m : ℕ) (p : ℚ) (ts lfin : List ℚ)
    (hp : 0 ≤ p) (hs : ts.Sorted (· ≤ ·))
    (hrun : runAcquires m p ts [] = some lfin) (t : ℚ) :
    (ts.filter (fun u => decide (t - p ≤ u) && decide (u ≤ t))).length ≤ m := by
  cases ts with
  | nil => simp
  | cons t0 ts'' =>
    have hmin : ∀ u ∈ t0 :: ts'', t0 ≤ u := by
      intro u hu
      rcases List.mem_cons.mp hu with rfl | hu'
      · exact le_refl _
      · exact (List.sorted_cons.mp hs).1 u hu'
    have hbound := runAcquires_split_bound m p hp (t0 :: ts'') [] (t0 - p) lfin
      (by simpa using hs)
      (fun u hu => by have := hmin u hu; linarith)
      hrun
    by_cases hS :
        (t0 :: ts'').filter (fun u => decide (t - p ≤ u) && decide (u ≤ t)) = []
    · rw [hS]; simp
    · obtain ⟨pre, v, post, he, hv, hpost⟩ :=
        exists_split_last_filter (fun u => decide (t - p ≤ u) && decide (u ≤ t))
          (t0 :: ts'') hS
      have hv12 : t - p ≤ v ∧ v ≤ t := by simpa using hv
      have hcount :
          ((t0 :: ts'').filter
              (fun u => decide (t - p ≤ u) && decide (u ≤ t))).length =
            ((pre ++ [v]).filter
              (fun u => decide (t - p ≤ u) && decide (u ≤ t))).length := by
        rw [he, List.filter_append, List.filter_append, List.filter_cons,
          List.filter_cons, List.filter_nil, hv, hpost]
      have hmono := filter_length_le_of_imp (pre ++ [v])
        (fun u => decide (t - p ≤ u) && decide (u ≤ t))
        (fun u => decide (v - p ≤ u))
        (fun a _ hwa => by
          have ha' : t - p ≤ a ∧ a ≤ t := by simpa using hwa
          have : v - p ≤ a := by linarith [hv12.2, ha'.1]
          simpa using this)
      have hfin := hbound pre v post he
      rw [hcount]
      exact le_trans hmono (by simpa using hfin)

/-- C3 witness: two calls per 60 s window, granted at times 0, 10 and 70;
the trailing window ending at 70 holds at most two grants. -/
theorem acquire_window_safety_witness :
    (0:ℚ) ≤ 60 ∧ ([0, 10, 70] : List ℚ).Sorted (· ≤ ·) ∧
    runAcquires 2 60 [0, 10, 70] [] = some [10, 70] ∧
    (([0, 10, 70] : List ℚ).filter
        (fun u => decide ((70:ℚ) - 60 ≤ u) && decide (u ≤ 70))).length ≤ 2 :=
  ⟨by norm_num, by decide,
   by norm_num [runAcquires, acquireStep, pruneCallTimes, List.dropWhile],
   acquire_window_safety 2 60 [0, 10, 70] [10, 70] (by norm_num) (by decide)
     (by norm_num [runAcquires, acquireStep, pruneCallTimes, List.dropWhile]) 70⟩

/-- C9: every `RiskScore` row appended by `_recalculate_risk_scores` has its
score clamped to the interval from 0.05 to 0.95, and its stored level is
derived from the stored score: high iff at least 0.70, medium iff at least
0.40 and below 0.70, low iff below 0.40. -/
theorem recalculated_risk_entry_clamped_and_consistent
    (oldScore variationPct : ℚ) (direction : ℤ) :
    1/20 ≤ (recalcRiskEntry oldScore variationPct direction).riskScore ∧
    (recalcRiskEntry oldScore variationPct direction).riskScore ≤ 19/20 ∧
    ((recalcRiskEntry oldScore variationPct direction).riskLevel = "high" ↔
      7/10 ≤ (recalcRiskEntry oldScore variationPct direction).riskScore) ∧
    ((recalcRiskEntry oldScore variationPct direction).riskLevel = "medium" ↔
      (2/5 ≤ (recalcRiskEntry oldScore variationPct direction).riskScore ∧
        (recalcRiskEntry oldScore variationPct direction).riskScore < 7/10)) ∧
    ((recalcRiskEntry oldScore variationPct direction).riskLevel = "low" ↔
      (recalcRiskEntry oldScore variationPct direction).riskScore < 2/5) := by
  have hb := clampRiskScore_bounds
    (oldScore + oldScore * variationPct * direction)
  have hlv := riskLevelOf_cases
    (clampRiskScore (oldScore + oldScore * variationPct * direction))
  exact ⟨hb.1, hb.2, hlv.1, hlv.2.1, hlv.2.2⟩

/-- C4 counterexample: in `_update_protocol_metrics`, five active protocols
of which the third and the fifth raise do NOT yield three persisted
updates with `updated=3, failed=2`: the first raising item aborts the
loop, the session is rolled back, and the step reports
`updated_count = 0` with an error. -/
theorem metrics_refresh_not_failure_isolated :
    updateProtocolMetrics
        [MetricItem.ok, MetricItem.ok, MetricItem.fails, MetricItem.ok,
          MetricItem.fails] =
      ⟨0, 0, true⟩ ∧
    (updateProtocolMetrics
        [MetricItem.ok, MetricItem.ok, MetricItem.fails, MetricItem.ok,
          MetricItem.fails]).updatedCount ≠ 3 ∧
    (updateProtocolMetrics
        [MetricItem.ok, MetricItem.ok, MetricItem.fails, MetricItem.ok,
          MetricItem.fails]).persisted ≠ 3 := by
  decide

/-- C4 (amended): a failure while updating one protocol in the scheduler's
metrics-refresh step aborts the whole step — the first raising item causes
a rollback, nothing is persisted, and the step reports `updated_count = 0`
with an error.  Per-item failure isolation holds instead in
`DataCollectorService.collect`: failed per-protocol tasks are logged
individually and the others still count, so 5 protocols with 2 failures
yield `processed = 3`, and in general `processed` counts exactly the
successful tasks. -/
theorem metrics_refresh_aborts_collect_isolates
    (pre post : List MetricItem) (h : MetricItem.fails ∉ pre) :
    updateProtocolMetrics (pre ++ MetricItem.fails :: post) = ⟨0, 0, true⟩ ∧
    collectProcessed
        [Except.ok true, Except.error "timeout", Except.ok true,
          Except.error "reset", Except.ok true] = 3 ∧
    ∀ rs : List (Except String Bool),
      collectProcessed rs =
        (rs.filter (fun r =>
          match r with
          | Except.ok true => true
          | _ => false)).length := by
  refine ⟨?_, rfl, ?_⟩
  · have aux : ∀ (pre : List MetricItem) (pending : ℕ),
        MetricItem.fails ∉ pre →
        updateProtocolMetricsAux pending (pre ++ MetricItem.fails :: post) =
          ⟨0, 0, true⟩ := by
      intro pre
      induction pre with
      | nil => intro pending _; rfl
      | cons a as ih =>
        intro pending hmem
        have ha : a ≠ MetricItem.fails := fun he => hmem (he ▸ List.mem_cons_self a as)
        have has : MetricItem.fails ∉ as := fun hm => hmem (List.mem_cons_of_mem a hm)
        cases a with
        | noMetric => simpa [updateProtocolMetricsAux] using ih pending has
        | ok => simpa [updateProtocolMetricsAux] using ih (pending + 1) has
        | fails => exact absurd rfl ha
    exact aux pre 0 h
  · intro rs
    induction rs with
    | nil => rfl
    | cons r rest ih =>
      cases r with
      | error e => simpa [collectProcessed] using ih
      | ok b => cases b <;> simp [collectProcessed, ih] <;> omega

/-- C4 witness: concrete five-protocol run with the failure in third
position. -/
theorem metrics_refresh_aborts_collect_isolates_witness :
    updateProtocolMetrics
        [MetricItem.ok, MetricItem.ok, MetricItem.fails, MetricItem.ok] =
      ⟨0, 0, true⟩ ∧
    collectProcessed
        [Except.ok true, Except.error "timeout", Except.ok true,
          Except.error "reset", Except.ok true] = 3 :=
  ⟨(metrics_refresh_aborts_collect_isolates [MetricItem.ok, MetricItem.ok]
      [MetricItem.ok] (by decide)).1,
   (metrics_refresh_aborts_collect_isolates [MetricItem.ok, MetricItem.ok]
      [MetricItem.ok] (by decide)).2.1⟩

/-- C8: at the failing input of two random rolls 15 and 40 the scheduler
registers a fixed 75-minute interval trigger at `start` (the first and
only draw that affects scheduling), the first completed cycle re-rolls and
LOGS 100 minutes as the next delay, yet leaves the scheduler state — and
hence the actual 75-minute trigger period — unchanged, so the delay
between successive cycles is a single fixed period chosen at `start`, not
a value re-rolled per cycle, and the cycle's own "next update in ~100
minutes" log line contradicts the actual behaviour. -/
theorem scheduler_interval_fixed_at_start :
    (startScheduler ⟨none, false⟩ [15, 40]).1.jobIntervalMinutes = some 75 ∧
    (dataUpdateCycleLoggedNext (startScheduler ⟨none, false⟩ [15, 40]).1
        (startScheduler ⟨none, false⟩ [15, 40]).2).1 = 100 ∧
    (dataUpdateCycleLoggedNext (startScheduler ⟨none, false⟩ [15, 40]).1
        (startScheduler ⟨none, false⟩ [15, 40]).2).2.1 =
      (startScheduler ⟨none, false⟩ [15, 40]).1 ∧
    nextRunDelayMinutes
        (dataUpdateCycleLoggedNext (startScheduler ⟨none, false⟩ [15, 40]).1
          (startScheduler ⟨none, false⟩ [15, 40]).2).2.1 = some 75 ∧
    (75 : ℕ) ≠ 100 := by
  refine ⟨rfl, rfl, rfl, rfl, by decide⟩

/-- Unfolding one step of the `execute_with_backoff` sleep schedule. -/
theorem rlBackoffSleeps_succ (factor maxB : ℚ) (start cnt : ℕ) :
    rlBackoffSleeps factor maxB start (cnt + 1) =
      min (factor ^ (start + 1)) maxB :: rlBackoffSleeps factor maxB (start + 1) cnt := by
  unfold rlBackoffSleeps
  rw [List.range_succ_eq_map, List.map_cons, List.map_map]
  refine congrArg₂ List.cons (by simp) ?_
  refine List.map_congr_left fun k _ => ?_
  show min (factor ^ (start + (k + 1) + 1)) maxB =
    min (factor ^ (start + 1 + k + 1)) maxB
  rw [show start + (k + 1) + 1 = start + 1 + k + 1 from by omega]

/-- Unfolding one step of the `get_json` transient sleep schedule. -/
theorem gjBackoffSleeps_succ (base : ℚ) (start cnt : ℕ) :
    gjBackoffSleeps base start (cnt + 1) =
      base * 2 ^ start :: gjBackoffSleeps base (start + 1) cnt := by
  unfold gjBackoffSleeps
  rw [List.range_succ_eq_map, List.map_cons, List.map_map]
  refine congrArg₂ List.cons (by simp) ?_
  refine List.map_congr_left fun k _ => ?_
  show base * 2 ^ (start + (k + 1)) = base * 2 ^ (start + 1 + k)
  rw [show start + (k + 1) = start + 1 + k from by omega]

/-- C5 counterexample: a transient error ("connection timeout") handed to
`execute_with_backoff` with four retries remaining is re-raised
immediately with no sleep and no retry — it does not get the backoff
schedule that a 429-class error gets, contradicting "retries transient
errors with the same bounded exponential-backoff schedule used for
rate-limit responses". -/
theorem transient_error_propagates_without_retry :
    executeWithBackoff 2 300 5 [Except.error "connection timeout", Except.ok ()] =
      EWBResult.raisedImmediately "connection timeout" [] ∧
    isRateLimitError "connection timeout" = false ∧
    executeWithBackoff 2 300 5 [Except.error "429 Too Many Requests", Except.ok ()] =
      EWBResult.success [min ((2:ℚ) ^ 1) 300] := by
  exact ⟨rfl, rfl, rfl⟩

/-- Exhausting `execute_with_backoff` on rate-limited errors only. -/
theorem ewbAux_rateLimited_replicate (factor maxB : ℚ) (maxRetries : ℕ)
    (e : String) (he : isRateLimitError e = true) :
    ∀ (n retryCount : ℕ) (lastErr : Option String) (sleeps : List ℚ),
      maxRetries ≤ retryCount + n →
      ewbAux factor maxB maxRetries retryCount lastErr sleeps
          (List.replicate n (Except.error e)) =
        EWBResult.exhausted (if maxRetries ≤ retryCount then lastErr else some e)
          (sleeps ++ rlBackoffSleeps factor maxB retryCount (maxRetries - retryCount)) := by
  intro n
  induction n with
  | zero =>
    intro rc lastErr sleeps hle
    have h : maxRetries ≤ rc := by simpa using hle
    rw [List.replicate_zero, show maxRetries - rc = 0 from Nat.sub_eq_zero_of_le h]
    simp [ewbAux, h, rlBackoffSleeps]
  | succ n ih =>
    intro rc lastErr sleeps hle
    rw [List.replicate_succ]
    by_cases h : maxRetries ≤ rc
    · rw [show maxRetries - rc = 0 from Nat.sub_eq_zero_of_le h]
      simp [ewbAux, h, rlBackoffSleeps]
    · have hstep : ewbAux factor maxB maxRetries rc lastErr sleeps
          (Except.error e :: List.replicate n (Except.error e)) =
        ewbAux factor maxB maxRetries (rc + 1) (some e)
          (sleeps ++ [min (factor ^ (rc + 1)) maxB])
          (List.replicate n (Except.error e)) := by
        simp [ewbAux, h, he]
      rw [hstep, ih (rc + 1) (some e) _ (by omega)]
      have hm : maxRetries - rc = (maxRetries - (rc + 1)) + 1 := by omega
      rw [hm, rlBackoffSleeps_succ]
      by_cases h1 : maxRetries ≤ rc + 1 <;>
        simp [h, h1, List.append_assoc]

/-- Exhausting `get_json` on transient errors only. -/
theorem getJsonAux_transient_replicate (base : ℚ) (e : String) :
    ∀ (fuel n attempt : ℕ) (lastExc : Option String) (sleeps : List ℚ),
      fuel ≤ n → 0 < fuel →
      getJsonAux base fuel attempt lastExc sleeps
          (List.replicate n (HttpAttempt.transientErr e)) =
        GetJsonResult.raised e (sleeps ++ gjBackoffSleeps base attempt fuel) := by
  intro fuel
  induction fuel with
  | zero => intro n attempt lastExc sleeps _ h0; exact absurd h0 (by omega)
  | succ f ih =>
    intro n attempt lastExc sleeps hn _
    obtain ⟨n', rfl⟩ : ∃ n', n = n' + 1 := ⟨n - 1, by omega⟩
    rw [List.replicate_succ]
    rw [show getJsonAux base (f + 1) attempt lastExc sleeps
          (HttpAttempt.transientErr e ::
            List.replicate n' (HttpAttempt.transientErr e)) =
        getJsonAux base f (attempt + 1) (some e)
          (sleeps ++ [base * 2 ^ attempt])
          (List.replicate n' (HttpAttempt.transientErr e)) from rfl]
    by_cases hf : 0 < f
    · rw [ih n' (attempt + 1) (some e) _ (by omega) hf,
        gjBackoffSleeps_succ, List.append_assoc]
      rfl
    · have hf0 : f = 0 := by omega
      subst hf0
      rw [show getJsonAux base 0 (attempt + 1) (some e)
            (sleeps ++ [base * 2 ^ attempt])
            (List.replicate n' (HttpAttempt.transientErr e)) =
          GetJsonResult.raised e (sleeps ++ [base * 2 ^ attempt]) from rfl]
      rw [gjBackoffSleeps_succ]
      simp [gjBackoffSleeps]

/-- C5 (amended): `execute_with_backoff` retries only errors recognised as
rate-limit (message containing "429", "rate limit" or "too many
requests"), sleeping `min(backoff_factor ** retry_count, max_backoff)`
between attempts and surfacing the last such error after `max_retries`
attempts, while it propagates every other error — including transient
timeouts, 5xx and transport failures — immediately with no retry.
Transient-error retrying lives in `_RetryingClient.get_json` instead,
which sleeps `backoff_base * 2 ** attempt` and raises the last transient
error after `max_retries` attempts, and which sleeps
`min(Retry-After, 10)` for a 429 carrying a nonzero Retry-After header —
a schedule distinct from the transient one. -/
theorem retry_wrappers_backoff_behaviour :
    (∀ (factor maxB : ℚ) (maxRetries : ℕ) (e : String)
        (rest : List (Except String Unit)),
      0 < maxRetries → isRateLimitError e = false →
      executeWithBackoff factor maxB maxRetries (Except.error e :: rest) =
        EWBResult.raisedImmediately e []) ∧
    (∀ (factor maxB : ℚ) (maxRetries n : ℕ) (e : String),
      isRateLimitError e = true → 0 < maxRetries → maxRetries ≤ n →
      executeWithBackoff factor maxB maxRetries
          (List.replicate n (Except.error e)) =
        EWBResult.exhausted (some e) (rlBackoffSleeps factor maxB 0 maxRetries)) ∧
    (∀ (base : ℚ) (maxRetries n : ℕ) (e : String),
      0 < maxRetries → maxRetries ≤ n →
      getJson base maxRetries (List.replicate n (HttpAttempt.transientErr e)) =
        GetJsonResult.raised e (gjBackoffSleeps base 0 maxRetries)) ∧
    (∀ (base ra : ℚ) (maxRetries : ℕ) (rest : List HttpAttempt),
      2 ≤ maxRetries → ra ≠ 0 →
      getJson base maxRetries
          (HttpAttempt.resp429 ra :: HttpAttempt.okJson :: rest) =
        GetJsonResult.success [min ra 10]) := by
  refine ⟨?_, ?_, ?_, ?_⟩
  · intro factor maxB maxRetries e rest hmr he
    have h0 : ¬ maxRetries ≤ 0 := by omega
    simp [executeWithBackoff, ewbAux, h0, he]
  · intro factor maxB maxRetries n e he hmr hn
    have := ewbAux_rateLimited_replicate factor maxB maxRetries e he n 0 none []
      (by omega)
    rw [executeWithBackoff, this]
    have h0 : ¬ maxRetries ≤ 0 := by omega
    simp [h0]
  · intro base maxRetries n e hmr hn
    exact getJsonAux_transient_replicate base e maxRetries n 0 none [] hn hmr
  · intro base ra maxRetries rest hmr hra
    obtain ⟨f, rfl⟩ : ∃ f, maxRetries = f + 2 := ⟨maxRetries - 2, by omega⟩
    show getJsonAux base (f + 2) 0 none []
        (HttpAttempt.resp429 ra :: HttpAttempt.okJson :: rest) = _
    rw [show getJsonAux base (f + 2) 0 none []
          (HttpAttempt.resp429 ra :: HttpAttempt.okJson :: rest) =
        getJsonAux base (f + 1) 1 none
          ([] ++ [min (if ra = 0 then base * 2 ^ 0 else ra) 10])
          (HttpAttempt.okJson :: rest) from rfl]
    rw [if_neg hra]
    rfl

/-- C5 witness: concrete runs of both wrappers — a 429-only run of
`execute_with_backoff` with two retries, an immediate propagation of a
timeout, a transient-only `get_json` run, and a 429 with Retry-After 7. -/
theorem retry_wrappers_backoff_behaviour_witness :
    executeWithBackoff 2 300 5 [Except.error "timed out", Except.ok ()] =
      EWBResult.raisedImmediately "timed out" [] ∧
    executeWithBackoff 2 300 2
        (List.replicate 2 (Except.error "429")) =
      EWBResult.exhausted (some "429") (rlBackoffSleeps 2 300 0 2) ∧
    getJson (1/2) 3 (List.replicate 3 (HttpAttempt.transientErr "timeout")) =
      GetJsonResult.raised "timeout" (gjBackoffSleeps (1/2) 0 3) ∧
    getJson (1/2) 3 [HttpAttempt.resp429 7, HttpAttempt.okJson] =
      GetJsonResult.success [min (7:ℚ) 10] :=
  ⟨retry_wrappers_backoff_behaviour.1 2 300 5 "timed out" [Except.ok ()]
      (by omega) rfl,
   retry_wrappers_backoff_behaviour.2.1 2 300 2 2 "429" rfl (by omega) (by omega),
   retry_wrappers_backoff_behaviour.2.2.1 (1/2) 3 3 "timeout" (by omega) (by omega),
   retry_wrappers_backoff_behaviour.2.2.2 (1/2) 7 3 [] (by omega) (by norm_num)⟩

end SafeFi
